import Mathlib

/-!
Verification development for the High Stakes invest-game kernel.

The TypeScript sources are shallowly embedded here:
* strings are `List Char`; JavaScript numbers are `JSNum` (NaN, the two
  infinities, or an exact fraction `Frac`); JSON.parse is modelled as an
  arbitrary function `List Char → Option Json` quantified in the theorems
  (so every statement holds for every possible parse behaviour);
* Euclidean division `Int./` by a positive denominator is floor division,
  which matches JavaScript Math.floor on exact fractions;
* fallible route handlers become functions into `Except`.
-/

namespace HS

/-- Whitespace test modelling the common characters matched by the regex
class backslash-s in the sanitizer regexes (space, tab, newline, carriage
return, vertical tab, form feed). -/
def isWs (c : Char) : Bool :=
  c = ' ' || c = '\t' || c = '\n' || c = '\r' || c = '\x0b' || c = '\x0c'

/-- ASCII lower-casing, modelling String.prototype.toLowerCase on the
ASCII range (other characters are unchanged). -/
def jsLower (c : Char) : Char :=
  if 'A' ≤ c && c ≤ 'Z' then Char.ofNat (c.toNat + 32) else c

/-- Left trim: drop leading whitespace. -/
def trimL (l : List Char) : List Char := l.dropWhile isWs

/-- Right trim: drop trailing whitespace. -/
def trimR (l : List Char) : List Char := (l.reverse.dropWhile isWs).reverse

/-- Model of String.prototype.trim. -/
def trim (l : List Char) : List Char := trimR (trimL l)

/-- Each whitespace character becomes a plain space (first half of the
replace of backslash-s-plus by a single space). -/
def wsToSp (c : Char) : Char := if isWs c then ' ' else c

/-- Collapse runs of consecutive spaces to a single space (second half of
the replace of backslash-s-plus by a single space). -/
def collapseSp : List Char → List Char
  | [] => []
  | [c] => [c]
  | a :: b :: t => if a = ' ' && b = ' ' then collapseSp (b :: t) else a :: collapseSp (b :: t)

/-- Model of `s.replace(/\s+/g, " ").trim()`: every maximal whitespace run
becomes one space, then the ends are trimmed. -/
def collapseWs (l : List Char) : List Char := trim (collapseSp (l.map wsToSp))

/-- Split a list at every occurrence of the character `c` (the separators
are dropped; empty pieces are kept, as JavaScript split does). -/
def splitOn (c : Char) : List Char → List (List Char)
  | [] => [[]]
  | x :: xs =>
    if x = c then [] :: splitOn c xs
    else
      match splitOn c xs with
      | h :: t => (x :: h) :: t
      | [] => [[x]]

/-- Drop a single trailing carriage return from a line. -/
def dropCR (l : List Char) : List Char :=
  match l.reverse with
  | '\r' :: r => r.reverse
  | _ => l

/-- Model of `s.split(/\r?\n/)`: split at newlines, where a newline may
consume one carriage return immediately before it. -/
def splitNl (l : List Char) : List (List Char) := (splitOn '\n' l).map dropCR

/-- Join pieces with a single space, modelling Array.prototype.join(" "). -/
def joinSp : List (List Char) → List Char
  | [] => []
  | [x] => x
  | x :: y :: t => x ++ ' ' :: joinSp (y :: t)

/-- Model of `s.split(/\s+/g)`: pieces between maximal whitespace runs.
A leading or trailing whitespace run produces an empty piece, and the
empty string yields one empty piece, exactly as in JavaScript.  A
whitespace character opens a new piece exactly when the character after
it is not whitespace (or it ends the string). -/
def splitWsRaw : List Char → List (List Char)
  | [] => [[]]
  | [c] => if isWs c then [[], []] else [[c]]
  | c :: d :: cs =>
    if isWs c then
      if isWs d then splitWsRaw (d :: cs) else [] :: splitWsRaw (d :: cs)
    else
      match splitWsRaw (d :: cs) with
      | h :: t => (c :: h) :: t
      | [] => [[c]]

/-- Model of `s.split(/\s+/g).filter(Boolean)`: the nonempty whitespace
separated words of a string. -/
def wordsWs (l : List Char) : List (List Char) :=
  (splitWsRaw l).filter (fun w => !w.isEmpty)

/-! Exact fractions standing in for finite JavaScript numbers.  The
denominator is a positive natural, carried with its positivity proof so
floor and comparison are well behaved; no normalisation is performed,
so all operations kernel-reduce. -/

/-- An exact fraction `num / den` with a positive denominator. -/
structure Frac where
  num : Int
  den : Nat
  denPos : 0 < den
deriving DecidableEq

/-- Embed an integer as a fraction. -/
def Frac.ofInt (n : Int) : Frac := ⟨n, 1, Nat.one_pos⟩

instance : OfNat Frac n := ⟨Frac.ofInt n⟩

/-- Comparison of fractions by cross multiplication (denominators are
positive). -/
def Frac.le (a b : Frac) : Bool := decide (a.num * b.den ≤ b.num * a.den)

/-- Strict comparison of fractions by cross multiplication. -/
def Frac.lt (a b : Frac) : Bool := decide (a.num * b.den < b.num * a.den)

/-- Addition without normalisation. -/
def Frac.add (a b : Frac) : Frac :=
  ⟨a.num * b.den + b.num * a.den, a.den * b.den, Nat.mul_pos a.denPos b.denPos⟩

/-- Subtraction without normalisation. -/
def Frac.sub (a b : Frac) : Frac :=
  ⟨a.num * b.den - b.num * a.den, a.den * b.den, Nat.mul_pos a.denPos b.denPos⟩

/-- Multiplication without normalisation. -/
def Frac.mul (a b : Frac) : Frac :=
  ⟨a.num * b.num, a.den * b.den, Nat.mul_pos a.denPos b.denPos⟩

/-- The rational value of a fraction (used only in proofs). -/
def Frac.toQ (f : Frac) : ℚ := (f.num : ℚ) / (f.den : ℚ)

/-- Math.floor on an exact fraction: Euclidean division by the positive
denominator is floor division. -/
def jfloor (f : Frac) : Int := f.num / (f.den : Int)

/-- Math.round on an exact fraction.  JavaScript Math.round(x) is
`floor(x + 1/2)` (halves round toward positive infinity), and
`floor(n/d + 1/2) = floor((2n+d)/(2d))`. -/
def jround (f : Frac) : Int := (2 * f.num + (f.den : Int)) / (2 * (f.den : Int))

/-- A JavaScript number: NaN, an infinity, or an exact finite value. -/
inductive JSNum where
  | nan : JSNum
  | inf : JSNum
  | ninf : JSNum
  | fin (f : Frac) : JSNum

/-- Model of Number.isFinite. -/
def JSNum.isFinite : JSNum → Bool
  | .fin _ => true
  | _ => false

/-! JSON values as produced by a successful JSON.parse.  The parse
function itself is external (the platform's JSON.parse); theorems
quantify over an arbitrary `List Char → Option Json`, `none` standing
for a parse that throws. -/

/-- A parsed JSON value. -/
inductive Json where
  | null : Json
  | bool (b : Bool) : Json
  | num (n : JSNum) : Json
  | str (s : List Char) : Json
  | arr (xs : List Json) : Json
  | obj (fields : List (List Char × Json)) : Json

/-- Property access `j[k]`: a field lookup on an object, `none`
(undefined) on anything else. -/
def jGet (j : Json) (k : List Char) : Option Json :=
  match j with
  | .obj fields => fields.lookup k
  | _ => none

/-- Model of `x ?? {}`: nullish values are replaced by an empty object,
anything else is kept. -/
def orEmptyObj (o : Option Json) : Json :=
  match o with
  | none => .obj []
  | some .null => .obj []
  | some v => v

/-- Model of `String(field || fallbackText)` for fields that the code
reads as strings: a present nonempty string is kept, a missing, empty or
non string field yields the fallback text.  (Coercion of other truthy
JSON values through String() is outside the model; no claim depends on
it.) -/
def strOr (o : Option Json) (d : List Char) : List Char :=
  match o with
  | some (.str s) => if s.isEmpty then d else s
  | _ => d

/-- Model of `Number(field)` for fields read as numbers: a numeric field
is kept, a missing field is NaN (Number(undefined)).  (Number() coercion
of strings and other values is outside the model; no claim depends on
it.) -/
def numOr (o : Option Json) : JSNum :=
  match o with
  | some (.num n) => n
  | _ => .nan

/-! Seeded picking (src/app/api routes, helpers of part_000). -/

/-- Modelled from the spec: the repository's `hash32` (module
`@/lib/hash`) is not under src/; §4.1 of the spec requires only a
deterministic string-to-uint32 map with no hidden mutable state.  We use
a djb2-style fold reduced mod 2^32; every downstream theorem that
quantifies over seeds holds for an arbitrary hash value. -/
def hash32 (s : List Char) : Nat :=
  s.foldl (fun h c => (h * 33 + c.toNat) % 4294967296) 5381

/-- Model of `Math.imul(a, b) >>> 0` for unsigned 32-bit inputs: the low
32 bits of the product. -/
def imul32 (a b : Nat) : Nat := (a * b) % 4294967296

/-- Model of `(Math.imul(h ^ (i * 0x9e3779b9), 1103515245) >>> 0)` used
by both triplet pickers: XOR of the 32-bit patterns, then a 32-bit
multiply. -/
def mix32 (h i : Nat) : Nat := imul32 (h ^^^ ((i * 0x9e3779b9) % 4294967296)) 1103515245

/-- First word list of `fallbackTitle`. -/
def fallbackWordsA : List (List Char) :=
  ["Nimbus".data, "Beacon".data, "Copper".data, "Orbit".data, "Latch".data, "Kettle".data,
   "Quiver".data, "Sprocket".data, "Civic".data, "Pocket".data, "Velvet".data, "Signal".data,
   "Ribbon".data, "Rocket".data, "Gadget".data, "Honey".data, "Marble".data, "Crisp".data]

/-- Second word list of `fallbackTitle`. -/
def fallbackWordsB : List (List Char) :=
  ["Buddy".data, "Pilot".data, "Switch".data, "Vault".data, "Compass".data, "Nudge".data,
   "Patch".data, "Dock".data, "Bloom".data, "Bridge".data, "Gauge".data, "Buddy".data,
   "Kit".data, "Loop".data, "Works".data, "Pro".data]

/-- Embedding of `fallbackTitle` (part_000 lines 404-448): a
deterministic descriptor-agnostic two word name indexed by independent
mixes of the seed hash. -/
def fallbackTitle (_descriptors : List Char × List Char) (seed : List Char) : List Char :=
  let h := hash32 seed
  let w1 := fallbackWordsA.getD (h % fallbackWordsA.length) []
  let w2 := fallbackWordsB.getD (imul32 h 2654435761 % fallbackWordsB.length) []
  w1 ++ ' ' :: w2

/-! Title sanitisation (part_000 lines 357-402). -/

/-- True for a lower-case ASCII letter or digit, the class kept by
`normalizeWord`. -/
def isLowerAlnum (c : Char) : Bool := ('a' ≤ c && c ≤ 'z') || ('0' ≤ c && c ≤ '9')

/-- Replace the curly quotes U+2018 and U+2019 by an ASCII apostrophe. -/
def quoteFix (c : Char) : Char := if c = '\u2018' || c = '\u2019' then '\x27' else c

/-- Embedding of `normalizeWord`: lower-case, straighten curly quotes,
drop every character that is not a lower-case letter or digit, trim. -/
def normalizeWord (s : List Char) : List Char :=
  trim (((s.map jsLower).map quoteFix).filter isLowerAlnum)

/-- Helper for `descriptorBannedWords`: the words of one descriptor after
lower-casing, quote straightening and turning every character outside
lower-case letters, digits and whitespace into a space (`replace` of
`[^a-z0-9\s]+` by a space), then whitespace splitting, trimming and
dropping empties. -/
def descriptorWords (d : List Char) : List (List Char) :=
  let cleaned := ((d.map jsLower).map quoteFix).map
    (fun c => if isLowerAlnum c || isWs c then c else ' ')
  ((splitWsRaw cleaned).map trim).filter (fun w => !w.isEmpty)

/-- Embedding of `descriptorBannedWords`: the normalized tokens of both
descriptors, keeping only tokens of length at least 3 (shorter glue
words are not filtered). -/
def descriptorBannedWords (descriptors : List Char × List Char) : List (List Char) :=
  let collect := fun (d : List Char) =>
    (((descriptorWords d).map normalizeWord).filter
      (fun n => !n.isEmpty && !(n.length < 3)))
  collect descriptors.1 ++ collect descriptors.2

/-- The cleaned title computed inside `sanitizeTitle` before the length
check: whitespace is collapsed, plus signs become spaces, and every word
whose normalized form is a banned descriptor token is removed. -/
def cleanedTitle (title : List Char) (descriptors : List Char × List Char) : List Char :=
  let banned := descriptorBannedWords descriptors
  let s0 := collapseWs (trim title)
  let s1 := collapseWs (s0.map (fun c => if c = '+' then ' ' else c))
  let kept := (wordsWs s1).filter (fun w => !(banned.contains (normalizeWord w)))
  collapseWs (joinSp kept)

/-- Embedding of `sanitizeTitle` (part_000 lines 386-402): descriptor
words are filtered out of the title; if fewer than 3 characters (or zero
words — the split of any string by whitespace is never empty, so this
disjunct never fires) remain, the deterministic fallback name is used. -/
def sanitizeTitle (title : List Char) (descriptors : List Char × List Char)
    (seed : List Char) : List Char :=
  let cleaned := cleanedTitle title descriptors
  if cleaned.length < 3 || (splitWsRaw cleaned).length < 1 then
    fallbackTitle descriptors seed
  else cleaned

/-! Pitch sanitisation (part_000 lines 335-355, shared verbatim with the
revise route in part_002). -/

/-- True for a character allowed inside the label of a heading pattern:
the class `[a-z0-9 _-]` with the case-insensitive flag. -/
def isLabelChar (c : Char) : Bool :=
  ('a' ≤ c && c ≤ 'z') || ('A' ≤ c && c ≤ 'Z') || ('0' ≤ c && c ≤ '9') ||
    c = ' ' || c = '_' || c = '-'

/-- True for an ASCII letter, the class `[a-z]` with the case-insensitive
flag. -/
def isAsciiLetter (c : Char) : Bool := ('a' ≤ c && c ≤ 'z') || ('A' ≤ c && c ≤ 'Z')

/-- After the label part of a heading: `\s*:\s*\S` — optional whitespace,
a colon, optional whitespace, then at least one non-whitespace
character. -/
def afterLabel (l : List Char) : Bool :=
  match l.dropWhile isWs with
  | ':' :: r => !(r.dropWhile isWs).isEmpty
  | _ => false

/-- Try every split of 0 to `budget` label characters followed by
`afterLabel`, the backtracking of `[a-z0-9 _-]{0,18}\s*:\s*\S+`. -/
def labelSearch : Nat → List Char → Bool
  | 0, l => afterLabel l
  | b + 1, l =>
    afterLabel l ||
      match l with
      | c :: cs => isLabelChar c && labelSearch b cs
      | [] => false

/-- Embedding of the heading test `/^[a-z][a-z0-9 _-]{0,18}\s*:\s*\S+/i`
used to drop lines like "Hook: ..." from pitches. -/
def isHeaderLine (l : List Char) : Bool :=
  match l with
  | c :: cs => isAsciiLetter c && labelSearch 18 cs
  | [] => false

/-- True for a leading bullet marker character, the class `[-*•]`. -/
def isBulletChar (c : Char) : Bool := c = '-' || c = '*' || c = '\u2022'

/-- Embedding of `line.replace(/^[-*•]+\s+/, "")`: if the line starts
with bullet markers followed by whitespace, both runs are removed. -/
def stripBullet (l : List Char) : List Char :=
  let bullets := l.takeWhile isBulletChar
  let rest := l.dropWhile isBulletChar
  if !bullets.isEmpty && !(rest.takeWhile isWs).isEmpty then rest.dropWhile isWs
  else l

/-- True for a sentence terminator, the class `[.!?]`. -/
def isTerm (c : Char) : Bool := c = '.' || c = '!' || c = '?'

/-- Scanner for `/[^.!?]+[.!?]+|[^.!?]+$/g`: accumulate a segment of
non-terminators followed by its terminator run; a trailing fragment
without terminators is also a segment; terminators with no preceding
content match nothing and are skipped. -/
def segsGo (acc : List Char) (inTerm : Bool) : List Char → List (List Char)
  | [] => if acc.isEmpty then [] else [acc.reverse]
  | c :: cs =>
    if isTerm c then
      if acc.isEmpty then segsGo [] false cs
      else segsGo (c :: acc) true cs
    else
      if inTerm then acc.reverse :: segsGo [c] false cs
      else segsGo (c :: acc) false cs

/-- Embedding of
`s.match(/[^.!?]+[.!?]+|[^.!?]+$/g)?.map(trim).filter(Boolean) ?? []`:
the trimmed nonempty sentence segments of a string. -/
def sentencesOf (s : List Char) : List (List Char) :=
  ((segsGo [] false s).map trim).filter (fun x => !x.isEmpty)

/-- The line phase of `sanitizePitch`: split on newlines, trim each line,
drop heading-shaped lines, strip leading bullet markers. -/
def pitchLines (s : List Char) : List (List Char) :=
  (((splitNl s).map trim).filter (fun l => !isHeaderLine l)).map stripBullet

/-- Embedding of `sanitizePitch` (part_000 lines 335-355): drop heading
lines and bullet markers, collapse whitespace, keep only the first two
sentences. -/
def sanitizePitch (input : List Char) : List Char :=
  let s := trim input
  if s.isEmpty then []
  else
    let s1 := collapseWs (joinSp (pitchLines s))
    trim (joinSp ((sentencesOf s1).take 2))

/-! Data model (lib/investTypes, lib/constants). -/

/-- Slot identifier of an invention. -/
inductive InventionId where
  | A : InventionId
  | B : InventionId
  | C : InventionId
deriving DecidableEq

/-- The string form of a slot identifier. -/
def InventionId.str : InventionId → List Char
  | .A => ['A']
  | .B => ['B']
  | .C => ['C']

/-- Regulatory risk levels of a hidden truth. -/
inductive Risk where
  | low : Risk
  | medium : Risk
  | high : Risk
deriving DecidableEq

/-- Demand profiles of a hidden truth. -/
inductive Demand where
  | niche : Demand
  | mainstream : Demand
  | enterprise : Demand
  | fad : Demand
deriving DecidableEq

/-- Per-item hidden truth, never exposed to the player. -/
structure HiddenInventionTruth where
  notes : List Char
  regulatoryRisk : Risk
  demandProfile : Demand
deriving DecidableEq

/-- A generated invention (the current variant of the start route, whose
economic numbers are fixed server side; it has no unitCogsUsd field). -/
structure Invention where
  id : InventionId
  title : List Char
  pitch : List Char
  category : List Char
  descriptors : List Char × List Char
  valuationUsd : Int
  unitPriceUsd : Int
  imageUrl : Option (List Char)
deriving DecidableEq

instance : Inhabited Invention :=
  ⟨⟨.A, [], [], [], ([], []), 0, 0, none⟩⟩

/-- Constant from lib/constants. -/
def INVEST_VALUATION_MIN_USD : Int := 20000

/-- Constant from lib/constants. -/
def INVEST_VALUATION_MAX_USD : Int := 500000

/-- Constant from lib/constants. -/
def INVEST_UNIT_PRICE_MIN_USD : Int := 5

/-- Constant from lib/constants. -/
def INVEST_UNIT_PRICE_MAX_USD : Int := 5000

/-- Constant from lib/constants. -/
def INVEST_MIN_UNITS_SOLD : Int := 1

/-- Constant from lib/constants. -/
def INVEST_MAX_UNITS_SOLD : Int := 1000000

/-- Constant from lib/constants. -/
def INVEST_BANKROLL_FLOOR_USD : Int := 10000

/-- Decimal digit string of an integer. -/
def intToStr : Int → List Char
  | .ofNat m => Nat.toDigits 10 m
  | .negSucc m => '-' :: Nat.toDigits 10 (m + 1)

/-! Content generator (part_000, current variant, lines 191-333). -/

/-- Embedding of `clampInt` (identical in part_000 line 261 and part_001
line 177): non-finite input yields the minimum bound, otherwise the
value is rounded then clamped between the bounds. -/
def clampInt (n : JSNum) (lo hi : Int) : Int :=
  match n with
  | .fin f => max lo (min hi (jround f))
  | _ => lo

/-- The canned pitch used whenever no pitch survives sanitisation. -/
def cannedPitch : List Char := "A pitch so secret it forgot to show up.".data

/-- Embedding of `parseInventionResponse` (part_000 lines 266-333).  The
argument `p` is the outcome of JSON.parse on the raw backend text,
`none` when the parse throws: that case returns the deterministic
fallback of the catch block. -/
def parseInventionResponse (p : Option Json) (id : InventionId)
    (descriptors : List Char × List Char) (fixedNumbers : Int × Int) :
    Invention × HiddenInventionTruth :=
  match p with
  | none =>
    (⟨id, fallbackTitle descriptors (id.str ++ ":fallback".data), cannedPitch,
      "consumer".data, descriptors, fixedNumbers.1, fixedNumbers.2, none⟩,
     ⟨[], .low, .niche⟩)
  | some parsed =>
    let inv := orEmptyObj (jGet parsed "invention".data)
    let hid := orEmptyObj (jGet parsed "hidden".data)
    let unitPriceUsd := clampInt (.fin (Frac.ofInt fixedNumbers.2))
      INVEST_UNIT_PRICE_MIN_USD INVEST_UNIT_PRICE_MAX_USD
    let valuationUsd := clampInt (.fin (Frac.ofInt fixedNumbers.1))
      INVEST_VALUATION_MIN_USD INVEST_VALUATION_MAX_USD
    let titleSeed := id.str ++ ':' :: intToStr unitPriceUsd ++ ':' :: intToStr valuationUsd
    let title := sanitizeTitle
      (trim (strOr (jGet inv "title".data) ("Invention ".data ++ id.str)))
      descriptors titleSeed
    let pitch0 := sanitizePitch (trim (strOr (jGet inv "pitch".data) []))
    let pitch := if pitch0.isEmpty then cannedPitch else pitch0
    let category0 := trim (strOr (jGet inv "category".data) "consumer".data)
    let category := if category0.isEmpty then "consumer".data else category0
    let regulatoryRisk : Risk :=
      match jGet hid "regulatoryRisk".data with
      | some (.str s) =>
        if s = "high".data then .high
        else if s = "medium".data then .medium
        else if s = "low".data then .low
        else .low
      | _ => .low
    let demandProfile : Demand :=
      match jGet hid "demandProfile".data with
      | some (.str s) =>
        if s = "niche".data then .niche
        else if s = "mainstream".data then .mainstream
        else if s = "enterprise".data then .enterprise
        else if s = "fad".data then .fad
        else .niche
      | _ => .niche
    (⟨id, title, pitch, category, descriptors, valuationUsd, unitPriceUsd, none⟩,
     ⟨trim (strOr (jGet hid "notes".data) []), regulatoryRisk, demandProfile⟩)

/-- Embedding of `generateInvention` (part_000 lines 191-209): the
backend call either raises (`Except.error`, which the function does not
catch and therefore re-raises to its caller) or yields a reply whose
parse outcome is handed to `parseInventionResponse`. -/
def generateInvention (backend : Except Unit (Option Json)) (id : InventionId)
    (descriptors : List Char × List Char) (fixedNumbers : Int × Int) :
    Except Unit (Invention × HiddenInventionTruth) :=
  match backend with
  | .error e => .error e
  | .ok p => .ok (parseInventionResponse p id descriptors fixedNumbers)

/-! Economics of the simulate route (part_001, current variant). -/

/-- Validation errors of the simulate route that concern the investment
amount. -/
inductive SimErr where
  | invalidInvested : SimErr
  | tooSmall : SimErr
deriving DecidableEq

/-- Successful payload of the simulate route (the narrative free text is
outside this model). -/
structure SimResponse where
  unitsSold : Int
  grossRevenueUsd : Int
  ownershipShare : Frac
  payoutUsd : Int
deriving DecidableEq

/-- Math.min of two fractions. -/
def minFrac (a b : Frac) : Frac := if a.le b then a else b

/-- Embedding of
`Math.min(INVEST_MAX_INVEST_FRACTION_OF_VALUATION, investedUsd / valuationUsd)`.
When this line runs the route has already established
`0 < investedUsd ≤ floor(valuationUsd * 0.75)`, so `valuationUsd` is
positive; for nonpositive valuation JavaScript division would give an
infinity and Math.min would give 0.75, the value used in that (dead)
branch. -/
def ownershipShareOf (investedUsd valuationUsd : Int) : Frac :=
  if h : 0 < valuationUsd then
    minFrac ⟨3, 4, by omega⟩ ⟨investedUsd, valuationUsd.toNat, by omega⟩
  else ⟨3, 4, by omega⟩

/-- Embedding of the investment validation of the simulate route
(part_001 lines 43, 57-59 and 71-75): a non-finite or nonpositive raw
amount is rejected up front; otherwise the amount is floored, capped at
`Math.floor(valuationUsd * 0.75)` (exactly `⌊3v/4⌋`), and rejected when
the resolved amount is nonpositive. -/
def resolveInvested (valuationUsd : Int) (investedRaw : JSNum) : Except SimErr Int :=
  match investedRaw with
  | .fin f =>
    if f.le (Frac.ofInt 0) then .error .invalidInvested
    else
      let maxInvest := (3 * valuationUsd) / 4
      let investedUsd := min (jfloor f) maxInvest
      if investedUsd ≤ 0 then .error .tooSmall
      else .ok investedUsd
  | _ => .error .invalidInvested

/-- Embedding of the simulate route after the slate and invention have
been found (part_001 lines 57-113): validate the investment amount via
`resolveInvested`, then clamp the generator's unitsSold and compute
revenue and payout.  `investedRaw` is `Number(body.investedUsd)`;
`unitsSoldRaw` is the unitsSold value produced by `parseSimResponse` on
the backend reply (a rejected investment never reaches the backend, so
the result does not depend on `unitsSoldRaw` in that case). -/
def simulateOutcome (valuationUsd unitPriceUsd : Int)
    (investedRaw unitsSoldRaw : JSNum) : Except SimErr SimResponse :=
  match resolveInvested valuationUsd investedRaw with
  | .error e => .error e
  | .ok investedUsd =>
    let ownershipShare := ownershipShareOf investedUsd valuationUsd
    let clampedUnits := clampInt unitsSoldRaw INVEST_MIN_UNITS_SOLD INVEST_MAX_UNITS_SOLD
    let grossRevenueUsd := clampedUnits * unitPriceUsd
    let payoutUsd := jround ((Frac.ofInt grossRevenueUsd).mul ownershipShare)
    .ok ⟨clampedUnits, grossRevenueUsd, ownershipShare, payoutUsd⟩

/-- Follows the spec's words (for comparison with `clampInt`):
round-half-away-from-zero of an exact fraction. -/
def roundHalfAwayFromZero (f : Frac) : Int :=
  if 0 ≤ f.num then jround f else -(jround ⟨-f.num, f.den, f.denPos⟩)

/-- Follows the spec's words (for comparison with the code's clamp of
unitsSold): clamp into the configured bounds using
round-half-away-from-zero semantics, non-finite input defaulting to the
minimum bound. -/
def clampUnitsSpec (n : JSNum) : Int :=
  match n with
  | .fin f =>
    max INVEST_MIN_UNITS_SOLD (min INVEST_MAX_UNITS_SOLD (roundHalfAwayFromZero f))
  | _ => INVEST_MIN_UNITS_SOLD

/-! Cache store (lib/storage.ts). -/

/-- An entry of the in-process fallback map. -/
structure StoredValue where
  value : List Char
  expiresAt : Option Int

/-- The in-process fallback map, as an association list with unique
keys. -/
def MemStore : Type := List (List Char × StoredValue)

/-- Embedding of the Vercel KV branch of `kvGetJSON` (storage.ts lines
18-27): a missing or empty raw value is null, otherwise the raw string
is parsed, a throwing parse (`p raw = none`) being caught to null. -/
def kvGetJSONDurable (p : List Char → Option Json)
    (backendGet : List Char → Option (List Char)) (key : List Char) : Option Json :=
  match backendGet key with
  | none => none
  | some raw => if raw.isEmpty then none else p raw

/-- Embedding of the memory branch of `kvGetJSON` (storage.ts lines
29-40): entries past a truthy expiry are deleted and read as null; a
throwing parse is caught to null.  The possibly updated store is
returned alongside the result. -/
def kvGetJSONMemory (p : List Char → Option Json) (now : Int)
    (store : MemStore) (key : List Char) : Option Json × MemStore :=
  match store.lookup key with
  | none => (none, store)
  | some entry =>
    let expired :=
      match entry.expiresAt with
      | some e => !(e = 0) && decide (now > e)
      | none => false
    if expired then (none, store.filter (fun kv => !(kv.1 = key)))
    else (p entry.value, store)

/-- Embedding of `kvGetJSON` (storage.ts lines 18-41): the backend is
chosen on every call by the configuration flag. -/
def kvGetJSON (hasVercelKV : Bool) (p : List Char → Option Json)
    (backendGet : List Char → Option (List Char)) (now : Int)
    (store : MemStore) (key : List Char) : Option Json × MemStore :=
  if hasVercelKV then (kvGetJSONDurable p backendGet key, store)
  else kvGetJSONMemory p now store key

/-! Ask-route answer parsing (part_002, second document, lines 253-277). -/

/-- Embedding of `clampAnswer`: collapse whitespace runs; up to 240
characters the collapsed answer is returned as is, otherwise it is cut
to 236 characters, trimmed, and an ellipsis is appended. -/
def clampAnswer (s : List Char) : List Char :=
  let trimmed := collapseWs s
  if trimmed.length ≤ 240 then trimmed
  else trim (trimmed.take 236) ++ ['\u2026']

/-- Case-insensitive literal match of a lower-case pattern at the head of
the input, returning the rest on success. -/
def matchCI : List Char → List Char → Option (List Char)
  | [], rest => some rest
  | _ :: _, [] => none
  | pc :: ps, c :: cs => if jsLower c = pc then matchCI ps cs else none

/-- One position of the regex `/"answer"\s*:\s*"([\s\S]*?)"/i`: the
quoted literal, optional whitespace, a colon, optional whitespace, an
opening quote, then the lazily captured text up to the next quote (which
must exist). -/
def answerAt (l : List Char) : Option (List Char) :=
  match matchCI "\"answer\"".data l with
  | none => none
  | some r1 =>
    match r1.dropWhile isWs with
    | ':' :: r2 =>
      match r2.dropWhile isWs with
      | '\"' :: r3 =>
        let cap := r3.takeWhile (fun c => !(c = '\"'))
        match r3.dropWhile (fun c => !(c = '\"')) with
        | '\"' :: _ => some cap
        | _ => none
      | _ => none
    | _ => none

/-- Left-to-right search for the first match of the answer regex. -/
def answerSearch : List Char → Option (List Char)
  | [] => none
  | c :: cs =>
    match answerAt (c :: cs) with
    | some cap => some cap
    | none => answerSearch cs

/-- The last-resort answer of `parseAnswerResponse`. -/
def fallbackAnswer : List Char := "I\u2026 I don\x27t know how to answer that.".data

/-- The try-block of `parseAnswerResponse`: a parse that throws, or a
parsed value without a nonempty string answer field, produces no result
and falls through to the regex fallback. -/
def answerViaJson (p : List Char → Option Json) (raw : List Char) : Option (List Char) :=
  match p raw with
  | some j =>
    match jGet j "answer".data with
    | some (.str a) => if (trim a).isEmpty then none else some (clampAnswer (trim a))
    | _ => none
  | none => none

/-- Embedding of `parseAnswerResponse`: a parsed object with a nonempty
string answer is clamped; otherwise the regex fallback captures an
answer, a truthy capture being clamped; otherwise the fixed sentence is
returned.  `p` is the JSON.parse outcome on the raw reply (`none` for a
throw). -/
def parseAnswerResponse (p : List Char → Option Json) (raw : List Char) : List Char :=
  match answerViaJson p raw with
  | some r => r
  | none =>
    match answerSearch raw with
    | some cap => if cap.isEmpty then fallbackAnswer else clampAnswer (trim cap)
    | none => fallbackAnswer

/-! Client bankroll state machine (hooks/useInvestorGame.ts). -/

/-- The client-held bankroll state persisted in localStorage. -/
structure ClientBankrollState where
  bankrollUsd : Frac
  lastSeenDateKey : Option (List Char)

/-- Embedding of the daily-floor effect (useInvestorGame.ts lines
140-151): nothing happens when the stored day equals today; otherwise
the day is recorded and the bankroll is floor-clamped.  The
`Number.isFinite` disjunct of the second guard is vacuous on exact
fractions. -/
def applyDailyFloor (todayKey : List Char) (b : ClientBankrollState) : ClientBankrollState :=
  if b.lastSeenDateKey = some todayKey then b
  else
    let v1 :=
      if Frac.lt b.bankrollUsd (Frac.ofInt INVEST_BANKROLL_FLOOR_USD) then
        Frac.ofInt INVEST_BANKROLL_FLOOR_USD
      else b.bankrollUsd
    let v2 :=
      if Frac.le v1 (Frac.ofInt 0) then Frac.ofInt INVEST_BANKROLL_FLOOR_USD else v1
    { bankrollUsd := v2, lastSeenDateKey := some todayKey }

/-- Embedding of the bankroll update after a successful simulation
(useInvestorGame.ts lines 372-376):
`Math.max(0, Math.round(prev.bankrollUsd - amount + sim.payoutUsd))`. -/
def settleSimulation (amount payoutUsd : Int) (b : ClientBankrollState) : ClientBankrollState :=
  { b with
    bankrollUsd :=
      Frac.ofInt (max 0 (jround ((b.bankrollUsd.sub (Frac.ofInt amount)).add
        (Frac.ofInt payoutUsd)))) }

/-! Start route, cache-hit branch (part_000, current variant, lines
50-87). -/

/-- A stored invest slate. -/
structure InvestSlate where
  version : Int
  dateKey : Option (List Char)
  gameId : List Char
  inventions : List Invention
  hiddenA : HiddenInventionTruth
  hiddenB : HiddenInventionTruth
  hiddenC : HiddenInventionTruth

/-- Truthiness of an optional string (`!inv.imageUrl` is true for a
missing or empty URL). -/
def truthyStr : Option (List Char) → Bool
  | some s => !s.isEmpty
  | none => false

/-- Embedding of the image backfill loop of the cache-hit branch: when
images are enabled, every item with a missing image (or any item, when
the blob store cannot persist) gets a best-effort regenerated image; a
throwing generation keeps the item unchanged.  `imgGen` is the outcome
of `generateAndStoreInventionImage` per item. -/
def backfillImages (imagesEnabled canPersist : Bool)
    (imgGen : Invention → Except Unit (List Char))
    (inventions : List Invention) : List Invention :=
  if imagesEnabled then
    inventions.map (fun inv =>
      if !truthyStr inv.imageUrl || !canPersist then
        match imgGen inv with
        | .ok url => { inv with imageUrl := some url }
        | .error _ => inv
      else inv)
  else inventions

/-- The cache-hit branch of the start route: backfill images, and when
the blob store cannot persist, rewrite the slate with the image URLs
stripped.  Returns the items of the response and the slate written back
to KV, if any. -/
def startCacheHit (imagesEnabled canPersist : Bool)
    (imgGen : Invention → Except Unit (List Char))
    (existing : InvestSlate) : List Invention × Option InvestSlate :=
  let inventions := backfillImages imagesEnabled canPersist imgGen existing.inventions
  let kvWrite :=
    if !canPersist then
      some { existing with inventions := inventions.map (fun inv => { inv with imageUrl := none }) }
    else none
  (inventions, kvWrite)

/-- The start route's dispatch on the cached slate (part_000 line 51):
a stored slate with exactly 3 inventions is served from cache; `none`
stands for the regeneration path taken otherwise. -/
def startSlate (existing : Option InvestSlate) (imagesEnabled canPersist : Bool)
    (imgGen : Invention → Except Unit (List Char)) :
    Option (List Invention × Option InvestSlate) :=
  match existing with
  | some s =>
    if s.inventions.length = 3 then some (startCacheHit imagesEnabled canPersist imgGen s)
    else none
  | none => none

/-! Triplet pickers of the start route (part_000 lines 450-491). -/

/-- Embedding of the slice-and-pad prologue of `pickTripletFromBuckets`:
keep at most three buckets and repeat the last one (or a zero bucket)
until there are three. -/
def pad3 (l : List (Int × Int)) : List (Int × Int) :=
  match l with
  | [] => [(0, 0), (0, 0), (0, 0)]
  | [a] => [a, a, a]
  | [a, b] => [a, b, b]
  | a :: b :: c :: _ => [a, b, c]

/-- The `pickIn` closure of `pickTripletFromBuckets`: normalise inverted
bucket bounds by swapping, take a nonnegative span, and draw
`lo + mix % (span + 1)`. -/
def pickInBucket (h i : Nat) (b : Int × Int) : Int :=
  let lo := min b.1 b.2
  let hi := max b.1 b.2
  let span := max 0 (hi - lo)
  let n := mix32 h i % (span.toNat + 1)
  lo + (n : Int)

/-- Embedding of `pickTripletFromBuckets` (part_000 lines 473-491): each
component is drawn from its padded bucket by `pickInBucket`. -/
def pickTripletFromBuckets (seed : List Char) (buckets : List (Int × Int)) :
    Int × Int × Int :=
  let bs := pad3 buckets
  let h := hash32 seed
  (pickInBucket h 0 (bs.getD 0 (0, 0)), pickInBucket h 1 (bs.getD 1 (0, 0)),
    pickInBucket h 2 (bs.getD 2 (0, 0)))

/-- The `pickIn` closure of `makeVariedNumberTriplet`: the bucket bounds
are used as given (no swap) and the span is forced to at least 1. -/
def pickInVaried (h i : Nat) (b : Int × Int) : Int :=
  let span := max 1 (b.2 - b.1)
  let n := mix32 h i % (span.toNat + 1)
  b.1 + (n : Int)

/-- Embedding of `makeVariedNumberTriplet` (part_000 lines 450-471):
three derived buckets over [min, max], each component drawn by
`pickInVaried`. -/
def makeVariedNumberTriplet (seed : List Char) (mn mx : Int) : Int × Int × Int :=
  let range := max 1 (mx - mn)
  let third := range / 3
  let buckets : List (Int × Int) :=
    [(mn, mn + third), (mn + third + 1, mn + 2 * third), (mn + 2 * third + 1, mx)]
  let h := hash32 seed
  (pickInVaried h 0 (buckets.getD 0 (0, 0)), pickInVaried h 1 (buckets.getD 1 (0, 0)),
    pickInVaried h 2 (buckets.getD 2 (0, 0)))

/-- Equality of all invention fields except the image URL, the notion of
"core item content" of the caching claims. -/
def sameCore (a b : Invention) : Prop :=
  a.id = b.id ∧ a.title = b.title ∧ a.pitch = b.pitch ∧ a.category = b.category ∧
    a.descriptors = b.descriptors ∧ a.valuationUsd = b.valuationUsd ∧
    a.unitPriceUsd = b.unitPriceUsd

/-- The lower-cased standalone tokens of a string, the vocabulary in
which the title-sanitisation claim is stated. -/
def lowerTokens (l : List Char) : List (List Char) :=
  (wordsWs l).map (fun w => w.map jsLower)

/-! Lemmas about trimming and whitespace. -/

theorem trimL_cons_not_ws (c : Char) (cs : List Char) (h : isWs c = false) :
    trimL (c :: cs) = c :: cs := by
  simp [trimL, List.dropWhile_cons, h]

theorem trimL_cons_ws (c : Char) (cs : List Char) (h : isWs c = true) :
    trimL (c :: cs) = trimL cs := by
  simp [trimL, List.dropWhile_cons, h]

theorem trimR_append_not_ws (l : List Char) (c : Char) (h : isWs c = false) :
    trimR (l ++ [c]) = l ++ [c] := by
  simp [trimR, List.dropWhile_cons, h]

theorem length_trimL_le (l : List Char) : (trimL l).length ≤ l.length :=
  (List.dropWhile_sublist _).length_le

theorem length_trimR_le (l : List Char) : (trimR l).length ≤ l.length := by
  have := (List.dropWhile_sublist (l := l.reverse) isWs).length_le
  simpa [trimR] using this

theorem length_trim_le (l : List Char) : (trim l).length ≤ l.length :=
  le_trans (length_trimR_le _) (length_trimL_le _)

theorem trimR_idem (l : List Char) : trimR (trimR l) = trimR l := by
  simp [trimR, List.dropWhile_idempotent]

theorem trimL_trim (l : List Char) : trimL (trim l) = trim l := by
  cases hm : trim l with
  | nil => simp [trimL]
  | cons x xs =>
    have hKne : trimL l ≠ [] := by
      intro hk
      rw [trim, hk] at hm
      simp [trimR] at hm
    have hu : trim l <+: trimL l := by
      rw [trim] at hm ⊢
      refine List.reverse_suffix.mp ?_
      simpa [trimR] using List.dropWhile_suffix (l := (trimL l).reverse) isWs
    obtain ⟨r, hr⟩ := hu
    have hhead : (trimL l).head? = some x := by
      rw [← hr, List.head?_append_of_ne_nil _ (by rw [hm] at hr ⊢; simp), hm]
      rfl
    have hx : isWs x = false := by
      have := List.head_dropWhile_not isWs l (by simpa [trimL] using hKne)
      have hx' : (trimL l).head hKne = x := by
        have := List.head?_eq_head (l := trimL l) hKne
        rw [hhead] at this
        exact (Option.some_injective _ this.symm)
      rw [← hx']
      simpa [trimL] using this
    rw [hm] at *
    exact trimL_cons_not_ws x xs hx

theorem trim_idem (l : List Char) : trim (trim l) = trim l := by
  calc trim (trim l) = trimR (trimL (trim l)) := rfl
    _ = trimR (trim l) := by rw [trimL_trim]
    _ = trimR (trimR (trimL l)) := rfl
    _ = trimR (trimL l) := trimR_idem _
    _ = trim l := rfl

theorem exists_head_not_ws_of_trim_fix (l : List Char) (h : trim l = l) (hne : l ≠ []) :
    ∃ c t, l = c :: t ∧ isWs c = false := by
  match l, hne with
  | c :: t, _ =>
    refine ⟨c, t, rfl, ?_⟩
    by_contra hc
    have hc' : isWs c = true := by simpa using hc
    have hlen : (trim (c :: t)).length ≤ t.length := by
      calc (trim (c :: t)).length ≤ (trimL (c :: t)).length := length_trimR_le _
        _ = (trimL t).length := by rw [trimL_cons_ws c t hc']
        _ ≤ t.length := length_trimL_le t
    rw [h] at hlen
    simp at hlen

theorem exists_last_not_ws_of_trim_fix (l : List Char) (h : trim l = l) (hne : l ≠ []) :
    ∃ t d, l = t ++ [d] ∧ isWs d = false := by
  have hl : l.getLast? = some (l.getLast hne) := List.getLast?_eq_getLast l hne
  obtain ⟨t, ht⟩ : ∃ t, l = t ++ [l.getLast hne] := List.getLast?_eq_some_iff.mp hl
  refine ⟨t, l.getLast hne, ht, ?_⟩
  by_contra hd
  have hd' : isWs (l.getLast hne) = true := by simpa using hd
  have hKne : trimL l ≠ [] := by
    intro hk
    rw [trim, hk] at h
    simp [trimR] at h
    exact hne h
  have hsuf : l.takeWhile isWs ++ trimL l = l :=
    List.takeWhile_append_dropWhile (p := isWs) (l := l)
  have hgl : (trimL l).getLast? = some (l.getLast hne) := by
    rw [← List.getLast?_append_of_ne_nil (l.takeWhile isWs) hKne, hsuf, hl]
  obtain ⟨t2, ht2⟩ : ∃ t2, trimL l = t2 ++ [l.getLast hne] :=
    List.getLast?_eq_some_iff.mp hgl
  have hlen1 : (trim l).length ≤ t2.length := by
    rw [trim, ht2]
    have : trimR (t2 ++ [l.getLast hne]) =
        ((t2.reverse).dropWhile isWs).reverse := by
      simp [trimR, List.dropWhile_cons, hd']
    rw [this]
    simpa using (List.dropWhile_sublist (l := t2.reverse) isWs).length_le
  have hlen2 : (trimL l).length ≤ l.length := length_trimL_le l
  rw [h] at hlen1
  rw [ht2] at hlen2
  simp at hlen2
  omega

theorem trim_append_sep (s₁ s₂ : List Char) (h₁ : trim s₁ = s₁) (hn₁ : s₁ ≠ [])
    (h₂ : trim s₂ = s₂) (hn₂ : s₂ ≠ []) :
    trim (s₁ ++ ' ' :: s₂) = s₁ ++ ' ' :: s₂ := by
  obtain ⟨c, t, hct, hc⟩ := exists_head_not_ws_of_trim_fix s₁ h₁ hn₁
  obtain ⟨t2, d, ht2, hd⟩ := exists_last_not_ws_of_trim_fix s₂ h₂ hn₂
  subst hct ht2
  have e1 : (c :: t) ++ ' ' :: (t2 ++ [d]) = c :: (t ++ ' ' :: t2 ++ [d]) := by simp
  have e2 : c :: (t ++ ' ' :: t2 ++ [d]) = (c :: (t ++ ' ' :: t2)) ++ [d] := by simp
  rw [trim, e1, trimL_cons_not_ws _ _ hc, e2, trimR_append_not_ws _ _ hd]

theorem trim_eq_nil_of_all_ws (l : List Char) (h : ∀ x ∈ l, isWs x = true) :
    trim l = [] := by
  have h1 : trimL l = [] := by
    simpa [trimL, List.dropWhile_eq_nil_iff] using h
  rw [trim, h1]
  simp [trimR]

theorem dropWhile_cons_head_false (p : Char → Bool) (l : List Char) (c : Char)
    (cs : List Char) (h : l.dropWhile p = c :: cs) : p c = false := by
  have hne : l.dropWhile p ≠ [] := by rw [h]; simp
  have h3 := List.head_dropWhile_not p l hne
  have h4 : (l.dropWhile p).head hne = c := by
    have h2 : (l.dropWhile p).head? = some c := by rw [h]; rfl
    have h5 := List.head?_eq_head hne
    rw [h2] at h5
    exact Option.some_injective _ h5.symm
  rw [h4] at h3
  exact h3

theorem all_ws_of_trim_eq_nil (l : List Char) (h : trim l = []) :
    ∀ x ∈ l, isWs x = true := by
  have h2 : trimL l = [] := by
    rcases hk : trimL l with _ | ⟨c, cs⟩
    · rfl
    · exfalso
      have hc : isWs c = false :=
        dropWhile_cons_head_false isWs l c cs (by simpa [trimL] using hk)
      have hmem : c ∈ (trimL l).reverse := by rw [hk]; simp
      have hnil : (trimL l).reverse.dropWhile isWs = [] := by
        have := congrArg List.reverse h
        rw [trim, trimR] at this
        simpa using this
      have hall := (List.dropWhile_eq_nil_iff).mp hnil
      rw [hall c hmem] at hc
      simp at hc
  have := (List.dropWhile_eq_nil_iff).mp (by simpa [trimL] using h2)
  exact this

theorem mem_collapseSp_of_ne_sp (m : List Char) (x : Char) (hxm : x ∈ m) (hs : x ≠ ' ') :
    x ∈ collapseSp m := by
  induction m using collapseSp.induct with
  | case1 => simp at hxm
  | case2 c => simpa [collapseSp] using hxm
  | case3 a b t hab ih =>
    rw [collapseSp, if_pos hab]
    rcases List.mem_cons.mp hxm with he | hx
    · simp only [Bool.and_eq_true, decide_eq_true_eq] at hab
      exact absurd (he.trans hab.1) hs
    · exact ih hx
  | case4 a b t hab ih =>
    rw [collapseSp, if_neg hab]
    rcases List.mem_cons.mp hxm with he | hx
    · rw [he]
      exact List.mem_cons_self a _
    · exact List.mem_cons_of_mem a (ih hx)

theorem all_ws_of_collapseWs_eq_nil (l : List Char) (h : collapseWs l = []) :
    ∀ x ∈ l, isWs x = true := by
  intro x hx
  by_contra hxw
  have hxw' : isWs x = false := by simpa using hxw
  have hxs : x ≠ ' ' := by
    intro he
    rw [he] at hxw'
    simp [isWs] at hxw'
  have hx1 : x ∈ l.map wsToSp := by
    have : wsToSp x = x := by simp [wsToSp, hxw']
    rw [← this]
    exact List.mem_map_of_mem _ hx
  have hx2 : x ∈ collapseSp (l.map wsToSp) := mem_collapseSp_of_ne_sp _ _ hx1 hxs
  have := all_ws_of_trim_eq_nil _ h x hx2
  rw [this] at hxw'
  simp at hxw'

theorem sentencesOf_mem (s x : List Char) (hx : x ∈ sentencesOf s) :
    trim x = x ∧ x ≠ [] := by
  rw [sentencesOf] at hx
  have hx1 := List.of_mem_filter hx
  have hx2 := List.mem_of_mem_filter hx
  obtain ⟨y, _, hy⟩ := List.mem_map.mp hx2
  constructor
  · rw [← hy, trim_idem]
  · simpa using hx1

theorem splitOn_of_not_mem (c : Char) (l : List Char) (h : c ∉ l) :
    splitOn c l = [l] := by
  induction l with
  | nil => rfl
  | cons x xs ih =>
    have hx : x ≠ c := fun he => h (he ▸ List.mem_cons_self x xs)
    have hxs : c ∉ xs := fun hm => h (List.mem_cons_of_mem x hm)
    rw [splitOn, if_neg hx, ih hxs]

theorem splitOn_append (c : Char) (a b : List Char) (h : c ∉ a) :
    splitOn c (a ++ c :: b) = a :: splitOn c b := by
  induction a with
  | nil => simp [splitOn]
  | cons x xs ih =>
    have hx : x ≠ c := fun he => h (he ▸ List.mem_cons_self x xs)
    have hxs : c ∉ xs := fun hm => h (List.mem_cons_of_mem x hm)
    have := ih hxs
    rw [List.cons_append, splitOn, if_neg hx, this]

theorem joinSp_single (a : List Char) : joinSp [a] = a := rfl

theorem joinSp_pair (a b : List Char) : joinSp [a, b] = a ++ ' ' :: b := rfl

/-! Lemmas about fractions, floors and rounding. -/

theorem jfloor_eq_floor (f : Frac) : jfloor f = ⌊f.toQ⌋ := by
  rw [jfloor, Frac.toQ, Rat.floor_intCast_div_natCast]

theorem jround_eq_floor (f : Frac) : jround f = ⌊f.toQ + 1 / 2⌋ := by
  have hd : ((f.den : ℚ)) ≠ 0 := by
    exact_mod_cast Nat.pos_iff_ne_zero.mp f.denPos
  have e : f.toQ + 1 / 2 = (((2 * f.num + (f.den : Int) : Int) : ℚ)) / (((2 * f.den : ℕ) : ℚ)) := by
    rw [Frac.toQ]
    field_simp
    ring
  rw [e, Rat.floor_intCast_div_natCast, jround]
  congr 1

theorem jround_nonpos_of_neg (f : Frac) (h : f.num < 0) : jround f ≤ 0 := by
  rw [jround_eq_floor]
  rw [show (0 : Int) = ⌊(1 / 2 : ℚ)⌋ by norm_num]
  apply Int.floor_le_floor
  have h1 : f.toQ < 0 := by
    rw [Frac.toQ]
    apply div_neg_of_neg_of_pos
    · exact_mod_cast h
    · exact_mod_cast f.denPos
  linarith

theorem jround_nonneg_of_nonneg (f : Frac) (h : 0 ≤ f.num) : 0 ≤ jround f := by
  rw [jround_eq_floor]
  apply Int.le_floor.mpr
  have h1 : 0 ≤ f.toQ := by
    rw [Frac.toQ]
    apply div_nonneg
    · exact_mod_cast h
    · positivity
  push_cast
  linarith

theorem clampInt_eq_clampUnitsSpec (n : JSNum) :
    clampInt n INVEST_MIN_UNITS_SOLD INVEST_MAX_UNITS_SOLD = clampUnitsSpec n := by
  cases n with
  | fin f =>
    rcases le_or_lt 0 f.num with hpos | hneg
    · simp [clampInt, clampUnitsSpec, roundHalfAwayFromZero, if_pos hpos]
    · have h1 : jround f ≤ 0 := jround_nonpos_of_neg f hneg
      have h2 : 0 ≤ jround ⟨-f.num, f.den, f.denPos⟩ :=
        jround_nonneg_of_nonneg _ (by simpa using hneg.le)
      simp only [clampInt, clampUnitsSpec, roundHalfAwayFromZero, if_neg (not_le.mpr hneg),
        INVEST_MIN_UNITS_SOLD, INVEST_MAX_UNITS_SOLD]
      omega
  | nan => rfl
  | inf => rfl
  | ninf => rfl

/-- Helper: after one application of the floor effect the stored day is
today. -/
theorem applyDailyFloor_lastSeen (t : List Char) (b : ClientBankrollState) :
    (applyDailyFloor t b).lastSeenDateKey = some t := by
  rw [applyDailyFloor]
  split
  · next h => rw [h]
  · rfl

/-- C5: after a simulated outcome the client bankroll becomes
`max(0, round(oldBankroll - invested + payout))`; the daily floor of
10000 is applied exactly once per new date key: a first view of a new
day with a bankroll below the floor (e.g. 500) sets it to exactly
10000, and every further view under the same date key is the identity,
even after a transaction pushed the bankroll below the floor. -/
theorem c5_bankroll_floor_once :
    (∀ (t : List Char) (b : ClientBankrollState),
        Frac.lt b.bankrollUsd (Frac.ofInt INVEST_BANKROLL_FLOOR_USD) = true →
        b.lastSeenDateKey ≠ some t →
        (applyDailyFloor t b).bankrollUsd = Frac.ofInt INVEST_BANKROLL_FLOOR_USD ∧
          (applyDailyFloor t b).lastSeenDateKey = some t) ∧
    (∀ (t : List Char) (b : ClientBankrollState),
        b.lastSeenDateKey = some t → applyDailyFloor t b = b) ∧
    (∀ (t : List Char) (b : ClientBankrollState) (amount payoutUsd : Int),
        applyDailyFloor t (settleSimulation amount payoutUsd (applyDailyFloor t b)) =
          settleSimulation amount payoutUsd (applyDailyFloor t b)) ∧
    (∀ (b : ClientBankrollState) (amount payoutUsd : Int),
        (settleSimulation amount payoutUsd b).bankrollUsd =
          Frac.ofInt (max 0 (jround ((b.bankrollUsd.sub (Frac.ofInt amount)).add
            (Frac.ofInt payoutUsd))))) := by
  refine ⟨?_, ?_, ?_, ?_⟩
  · intro t b hlt hne
    rw [applyDailyFloor, if_neg hne]
    refine ⟨?_, rfl⟩
    simp only [if_pos hlt]
    rw [if_neg]
    simp [Frac.le, Frac.ofInt, INVEST_BANKROLL_FLOOR_USD]
  · intro t b h
    rw [applyDailyFloor, if_pos h]
  · intro t b amount payoutUsd
    have h : (settleSimulation amount payoutUsd (applyDailyFloor t b)).lastSeenDateKey =
        some t := by
      rw [settleSimulation]
      exact applyDailyFloor_lastSeen t b
    rw [applyDailyFloor, if_pos h]
  · intro b amount payoutUsd
    rfl

/-- C6: for every finite requested investment amount the resolved amount
is the floored request capped at `⌊valuationUsd * 0.75⌋`; a request that
passes validation resolves to that positive amount, a nonpositive
resolution is rejected with an error, the rejection does not depend on
any backend reply (no simulation result is produced), and a non-finite
raw amount is rejected up front. -/
theorem c6_nonpositive_investment_rejected (v p : Int) (f : Frac) (u : JSNum) :
    (∀ a : Int, resolveInvested v (.fin f) = .ok a →
        a = min (jfloor f) (3 * v / 4) ∧ 0 < a) ∧
    (f.le (Frac.ofInt 0) = false → 0 < min (jfloor f) (3 * v / 4) →
        resolveInvested v (.fin f) = .ok (min (jfloor f) (3 * v / 4))) ∧
    (min (jfloor f) (3 * v / 4) ≤ 0 → ∃ e, resolveInvested v (.fin f) = .error e) ∧
    (∀ e, resolveInvested v (.fin f) = .error e →
        simulateOutcome v p (.fin f) u = .error e) ∧
    (∀ n : JSNum, n.isFinite = false → resolveInvested v n = .error .invalidInvested) := by
  refine ⟨?_, ?_, ?_, ?_, ?_⟩
  · intro a ha
    simp only [resolveInvested] at ha
    split at ha
    · exact absurd ha (by simp)
    · split at ha
      · exact absurd ha (by simp)
      · next h =>
          have hx := (Except.ok.injEq _ _).mp ha
          exact ⟨hx.symm, by omega⟩
  · intro hpos hres
    rw [resolveInvested, if_neg (by simp [hpos]), if_neg (by omega)]
  · intro hle
    rw [resolveInvested]
    split
    · exact ⟨.invalidInvested, rfl⟩
    · rw [if_pos hle]
      exact ⟨.tooSmall, rfl⟩
  · intro e he
    rw [simulateOutcome, he]
  · intro n hn
    cases n with
    | fin g => simp [JSNum.isFinite] at hn
    | nan => rfl
    | inf => rfl
    | ninf => rfl

/-- C9: `kvGetJSON` never raises on malformed stored data: on the
durable backend and on the in-process map alike, a stored string whose
parse throws is read as null, indistinguishable from not-found; the
backend is selected per call by the configuration flag. -/
theorem c9_kvGetJSON_total_on_bad_json (p : List Char → Option Json)
    (bg : List Char → Option (List Char)) (now : Int) (store : MemStore)
    (key raw : List Char) :
    (bg key = some raw → p raw = none → kvGetJSONDurable p bg key = none) ∧
    (∀ entry : StoredValue, store.lookup key = some entry → p entry.value = none →
        (kvGetJSONMemory p now store key).1 = none) ∧
    (kvGetJSON true p bg now store key).1 = kvGetJSONDurable p bg key ∧
    (kvGetJSON false p bg now store key).1 = (kvGetJSONMemory p now store key).1 := by
  refine ⟨?_, ?_, rfl, rfl⟩
  · intro hget hp
    simp only [kvGetJSONDurable, hget]
    split
    · rfl
    · exact hp
  · intro entry hl hp
    simp only [kvGetJSONMemory, hl]
    split
    · rfl
    · simpa using hp

/-- Witness for C5: a bankroll of 500 last seen on an earlier day is
floored to exactly 10000 on the first view of the new day, and a later
view the same day changes nothing even after a transaction spent 9000
against a 500 payout. -/
theorem c5_bankroll_floor_once_witness :
    (applyDailyFloor "2025-01-02-v3".data
        ⟨Frac.ofInt 500, some "2025-01-01-v3".data⟩).bankrollUsd = Frac.ofInt 10000 ∧
    applyDailyFloor "2025-01-02-v3".data
        (settleSimulation 9000 500 (applyDailyFloor "2025-01-02-v3".data
          ⟨Frac.ofInt 500, some "2025-01-01-v3".data⟩)) =
      settleSimulation 9000 500 (applyDailyFloor "2025-01-02-v3".data
        ⟨Frac.ofInt 500, some "2025-01-01-v3".data⟩) :=
  ⟨(c5_bankroll_floor_once.1 "2025-01-02-v3".data
      ⟨Frac.ofInt 500, some "2025-01-01-v3".data⟩ (by decide) (by decide)).1,
   c5_bankroll_floor_once.2.2.1 "2025-01-02-v3".data
      ⟨Frac.ofInt 500, some "2025-01-01-v3".data⟩ 9000 500⟩

/-- Witness for C6: a request of 0.5 dollars resolves to 0 and is
rejected; a request of 5000 dollars against a 20000 valuation resolves
to the floored and capped 5000. -/
theorem c6_nonpositive_investment_rejected_witness :
    (∃ e, resolveInvested 20000 (.fin ⟨1, 2, by omega⟩) = .error e) ∧
    ((5000 : Int) = min (jfloor (Frac.ofInt 5000)) (3 * 20000 / 4) ∧ (0 : Int) < 5000) :=
  ⟨(c6_nonpositive_investment_rejected 20000 25 ⟨1, 2, by omega⟩ .nan).2.2.1 (by decide),
   (c6_nonpositive_investment_rejected 20000 25 (Frac.ofInt 5000) .nan).1 5000 rfl⟩

/-- Witness for C9: a stored string that is not valid JSON is read as
null on both backends. -/
theorem c9_kvGetJSON_total_on_bad_json_witness :
    kvGetJSONDurable (fun _ => none)
        (fun k => if k = "k".data then some "notjson".data else none) "k".data = none ∧
    (kvGetJSONMemory (fun _ => none) 0
        [("k".data, ⟨"notjson".data, none⟩)] "k".data).1 = none :=
  ⟨(c9_kvGetJSON_total_on_bad_json (fun _ => none)
      (fun k => if k = "k".data then some "notjson".data else none) 0
      [("k".data, ⟨"notjson".data, none⟩)] "k".data "notjson".data).1 (by decide) rfl,
   (c9_kvGetJSON_total_on_bad_json (fun _ => none)
      (fun k => if k = "k".data then some "notjson".data else none) 0
      [("k".data, ⟨"notjson".data, none⟩)] "k".data "notjson".data).2.1
      ⟨"notjson".data, none⟩ rfl rfl⟩

/-- Helper: the clamp of unitsSold always lands in the configured
bounds. -/
theorem clampInt_units_bounds (u : JSNum) :
    INVEST_MIN_UNITS_SOLD ≤ clampInt u INVEST_MIN_UNITS_SOLD INVEST_MAX_UNITS_SOLD ∧
      clampInt u INVEST_MIN_UNITS_SOLD INVEST_MAX_UNITS_SOLD ≤ INVEST_MAX_UNITS_SOLD := by
  cases u with
  | fin f =>
    simp only [clampInt, INVEST_MIN_UNITS_SOLD, INVEST_MAX_UNITS_SOLD]
    omega
  | nan => exact ⟨le_refl _, by decide⟩
  | inf => exact ⟨le_refl _, by decide⟩
  | ninf => exact ⟨le_refl _, by decide⟩

/-- C2: every successful simulation clamps the parsed unitsSold into
[1, 1000000] (so the inputs -5, NaN and 1e9 land in range, non-finite
input defaulting to the minimum bound), the clamp agrees pointwise with
the round-half-away-from-zero clamp the spec describes, and the payout
is `round(unitsSold * unitPriceUsd * ownershipShare)` computed from the
clamped unitsSold. -/
theorem c2_units_clamped_payout_formula (v p : Int) (iv u : JSNum) (r : SimResponse)
    (h : simulateOutcome v p iv u = .ok r) :
    r.unitsSold = clampInt u INVEST_MIN_UNITS_SOLD INVEST_MAX_UNITS_SOLD ∧
    INVEST_MIN_UNITS_SOLD ≤ r.unitsSold ∧ r.unitsSold ≤ INVEST_MAX_UNITS_SOLD ∧
    r.grossRevenueUsd = r.unitsSold * p ∧
    r.payoutUsd = jround ((Frac.ofInt (r.unitsSold * p)).mul r.ownershipShare) ∧
    (∀ n : JSNum, clampInt n INVEST_MIN_UNITS_SOLD INVEST_MAX_UNITS_SOLD = clampUnitsSpec n) ∧
    clampInt (.fin (Frac.ofInt (-5))) INVEST_MIN_UNITS_SOLD INVEST_MAX_UNITS_SOLD = 1 ∧
    clampInt .nan INVEST_MIN_UNITS_SOLD INVEST_MAX_UNITS_SOLD = 1 ∧
    clampInt (.fin (Frac.ofInt 1000000000)) INVEST_MIN_UNITS_SOLD INVEST_MAX_UNITS_SOLD
      = 1000000 := by
  simp only [simulateOutcome] at h
  rcases hres : resolveInvested v iv with e | a
  · rw [hres] at h
    exact absurd h (by simp)
  · rw [hres] at h
    have hr : r = ⟨clampInt u INVEST_MIN_UNITS_SOLD INVEST_MAX_UNITS_SOLD,
        clampInt u INVEST_MIN_UNITS_SOLD INVEST_MAX_UNITS_SOLD * p,
        ownershipShareOf a v,
        jround ((Frac.ofInt (clampInt u INVEST_MIN_UNITS_SOLD INVEST_MAX_UNITS_SOLD * p)).mul
          (ownershipShareOf a v))⟩ := by
      exact ((Except.ok.injEq _ _).mp h).symm
    subst hr
    refine ⟨rfl, (clampInt_units_bounds u).1, (clampInt_units_bounds u).2, rfl, rfl,
      clampInt_eq_clampUnitsSpec, by decide, rfl, by decide⟩

/-- Helper: `sameCore` is reflexive. -/
theorem sameCore_refl (a : Invention) : sameCore a a :=
  ⟨rfl, rfl, rfl, rfl, rfl, rfl, rfl⟩

/-- Helper: `sameCore` is transitive. -/
theorem sameCore_trans (a b c : Invention) (h1 : sameCore a b) (h2 : sameCore b c) :
    sameCore a c := by
  obtain ⟨x1, x2, x3, x4, x5, x6, x7⟩ := h1
  obtain ⟨y1, y2, y3, y4, y5, y6, y7⟩ := h2
  exact ⟨x1.trans y1, x2.trans y2, x3.trans y3, x4.trans y4, x5.trans y5,
    x6.trans y6, x7.trans y7⟩

/-- Helper: changing only the image URL preserves the core content. -/
theorem sameCore_set_image (a : Invention) (u : Option (List Char)) :
    sameCore { a with imageUrl := u } a :=
  ⟨rfl, rfl, rfl, rfl, rfl, rfl, rfl⟩

/-- Helper: a pointwise core-preserving map preserves core content at
every index. -/
theorem sameCore_map_getD (g : Invention → Invention)
    (hg : ∀ x, sameCore (g x) x) (l : List Invention) (i : Nat) :
    sameCore ((l.map g).getD i default) (l.getD i default) := by
  rw [List.getD_eq_getElem?_getD, List.getD_eq_getElem?_getD, List.getElem?_map]
  cases h : l[i]? with
  | none => exact sameCore_refl _
  | some x => exact hg x

/-- Helper: the image backfill of the cache-hit branch preserves the
core content of every item. -/
theorem backfillImages_sameCore (ie cp : Bool) (gen : Invention → Except Unit (List Char))
    (l : List Invention) (i : Nat) :
    sameCore ((backfillImages ie cp gen l).getD i default) (l.getD i default) := by
  rw [backfillImages]
  split
  · apply sameCore_map_getD
    intro x
    split
    · split
      · exact sameCore_set_image x _
      · exact sameCore_refl x
    · exact sameCore_refl x
  · exact sameCore_refl _

/-- C8: a start call that finds a well-formed cached slate (exactly 3
items) serves the cache-hit branch, whose response items and re-stored
items keep exactly the cached title, pitch, category, descriptors and
numeric fields of every item; only the image URL can differ. -/
theorem c8_cached_items_immutable (s : InvestSlate) (ie cp : Bool)
    (gen : Invention → Except Unit (List Char)) (h3 : s.inventions.length = 3) :
    startSlate (some s) ie cp gen = some (startCacheHit ie cp gen s) ∧
    (startCacheHit ie cp gen s).1.length = s.inventions.length ∧
    (∀ i : Nat, sameCore ((startCacheHit ie cp gen s).1.getD i default)
        (s.inventions.getD i default)) ∧
    (∀ ws : InvestSlate, (startCacheHit ie cp gen s).2 = some ws →
        ws.inventions.length = s.inventions.length ∧
        ∀ i : Nat, sameCore (ws.inventions.getD i default)
          (s.inventions.getD i default)) := by
  refine ⟨?_, ?_, ?_, ?_⟩
  · rw [startSlate, if_pos h3]
  · rw [startCacheHit, backfillImages]
    split
    · simp
    · rfl
  · intro i
    exact backfillImages_sameCore ie cp gen s.inventions i
  · intro ws hws
    rw [startCacheHit] at hws
    simp only at hws
    split at hws
    · have hws2 := Option.some_injective _ hws
      subst hws2
      constructor
      · simp only [List.length_map]
        rw [backfillImages]
        split
        · simp
        · rfl
      · intro i
        refine sameCore_trans _ _ _ ?_ (backfillImages_sameCore ie cp gen s.inventions i)
        exact sameCore_map_getD _ (fun x => sameCore_set_image x none) _ i
    · exact absurd hws (by simp)

/-- Witness for C8: a concrete cached slate with three items, image
generation enabled but unable to persist, and every image regenerated
successfully: core content is untouched. -/
theorem c8_cached_items_immutable_witness :
    ∃ r : List Invention × Option InvestSlate,
      startSlate (some
          ⟨1, none, "g".data,
            [⟨.A, "TA".data, "PA".data, "c".data, ("d1".data, "d2".data), 20000, 25, none⟩,
             ⟨.B, "TB".data, "PB".data, "c".data, ("d3".data, "d4".data), 30000, 50, none⟩,
             ⟨.C, "TC".data, "PC".data, "c".data, ("d5".data, "d6".data), 40000, 75, none⟩],
            ⟨[], .low, .niche⟩, ⟨[], .low, .niche⟩, ⟨[], .low, .niche⟩⟩)
        true false (fun _ => .ok "u".data) = some r ∧
      sameCore (r.1.getD 0 default)
        ⟨.A, "TA".data, "PA".data, "c".data, ("d1".data, "d2".data), 20000, 25, none⟩ := by
  have h := c8_cached_items_immutable
    ⟨1, none, "g".data,
      [⟨.A, "TA".data, "PA".data, "c".data, ("d1".data, "d2".data), 20000, 25, none⟩,
       ⟨.B, "TB".data, "PB".data, "c".data, ("d3".data, "d4".data), 30000, 50, none⟩,
       ⟨.C, "TC".data, "PC".data, "c".data, ("d5".data, "d6".data), 40000, 75, none⟩],
      ⟨[], .low, .niche⟩, ⟨[], .low, .niche⟩, ⟨[], .low, .niche⟩⟩
    true false (fun _ => .ok "u".data) rfl
  exact ⟨_, h.1, h.2.2.1 0⟩

/-- Witness for C2 at a concrete slate and reply: valuation 20000, unit
price 25, a 5000 dollar investment and a parsed unitsSold of 1e9, which
clamps to 1000000 and pays out round(1000000 * 25 * 0.25). -/
theorem c2_units_clamped_payout_formula_witness :
    ∃ r : SimResponse,
      simulateOutcome 20000 25 (.fin (Frac.ofInt 5000)) (.fin (Frac.ofInt 1000000000))
        = .ok r ∧
      r.unitsSold = 1000000 ∧ r.payoutUsd = 6250000 ∧
      r.unitsSold = clampInt (.fin (Frac.ofInt 1000000000))
        INVEST_MIN_UNITS_SOLD INVEST_MAX_UNITS_SOLD := by
  refine ⟨⟨1000000, 25000000, ⟨5000, 20000, by omega⟩, 6250000⟩, rfl, rfl, rfl, ?_⟩
  have := c2_units_clamped_payout_formula 20000 25 (.fin (Frac.ofInt 5000))
    (.fin (Frac.ofInt 1000000000))
    ⟨1000000, 25000000, ⟨5000, 20000, by omega⟩, 6250000⟩ rfl
  exact this.1

/-- Helper: a bucket draw with swap-normalised bounds stays between the
normalised bounds. -/
theorem pickInBucket_bounds (h i : Nat) (b : Int × Int) :
    min b.1 b.2 ≤ pickInBucket h i b ∧ pickInBucket h i b ≤ max b.1 b.2 := by
  simp only [pickInBucket]
  have hle : min b.1 b.2 ≤ max b.1 b.2 := min_le_max
  have hmod : mix32 h i % ((max 0 (max b.1 b.2 - min b.1 b.2)).toNat + 1)
      ≤ (max 0 (max b.1 b.2 - min b.1 b.2)).toNat :=
    Nat.le_of_lt_succ (Nat.mod_lt _ (Nat.succ_pos _))
  omega

/-- Helper: a degenerate bucket (equal bounds, span 0) returns its lower
bound, with no division by zero. -/
theorem pickInBucket_span_zero (h i : Nat) (b : Int × Int) (he : b.1 = b.2) :
    pickInBucket h i b = b.1 := by
  simp [pickInBucket, he]

/-- Helper: a varied-triplet draw stays in its bucket when the bucket is
strictly increasing. -/
theorem pickInVaried_bounds (h i : Nat) (b : Int × Int) (hlt : b.1 < b.2) :
    b.1 ≤ pickInVaried h i b ∧ pickInVaried h i b ≤ b.2 := by
  simp only [pickInVaried]
  have hmod : mix32 h i % ((max 1 (b.2 - b.1)).toNat + 1) ≤ (max 1 (b.2 - b.1)).toNat :=
    Nat.le_of_lt_succ (Nat.mod_lt _ (Nat.succ_pos _))
  omega

/-- C7 (amended): `pickTripletFromBuckets` tolerates inverted bounds by
swapping, keeps every component inside its padded bucket's normalised
bounds (a span of 0 returning the lower bound without division by
zero), and both pickers are reproducible; `makeVariedNumberTriplet`
does not normalise its derived buckets, but for the configured
valuation bounds (20000, 500000) its derived buckets are strictly
increasing and every component lies inside its own bucket; the price
triplet components lie inside the three price bands. -/
theorem c7_seeded_pickers_amended :
    (∀ (s : List Char) (bs : List (Int × Int)),
        (min ((pad3 bs).getD 0 (0, 0)).1 ((pad3 bs).getD 0 (0, 0)).2
            ≤ (pickTripletFromBuckets s bs).1 ∧
          (pickTripletFromBuckets s bs).1
            ≤ max ((pad3 bs).getD 0 (0, 0)).1 ((pad3 bs).getD 0 (0, 0)).2) ∧
        (min ((pad3 bs).getD 1 (0, 0)).1 ((pad3 bs).getD 1 (0, 0)).2
            ≤ (pickTripletFromBuckets s bs).2.1 ∧
          (pickTripletFromBuckets s bs).2.1
            ≤ max ((pad3 bs).getD 1 (0, 0)).1 ((pad3 bs).getD 1 (0, 0)).2) ∧
        (min ((pad3 bs).getD 2 (0, 0)).1 ((pad3 bs).getD 2 (0, 0)).2
            ≤ (pickTripletFromBuckets s bs).2.2 ∧
          (pickTripletFromBuckets s bs).2.2
            ≤ max ((pad3 bs).getD 2 (0, 0)).1 ((pad3 bs).getD 2 (0, 0)).2)) ∧
    (∀ (h i : Nat) (b : Int × Int), b.1 = b.2 → pickInBucket h i b = b.1) ∧
    (∀ (s : List Char) (bs : List (Int × Int)),
        pickTripletFromBuckets s bs = pickTripletFromBuckets s bs) ∧
    (∀ (s : List Char) (mn mx : Int),
        makeVariedNumberTriplet s mn mx = makeVariedNumberTriplet s mn mx) ∧
    (∀ s : List Char,
        (20000 ≤ (makeVariedNumberTriplet s 20000 500000).1 ∧
          (makeVariedNumberTriplet s 20000 500000).1 ≤ 180000) ∧
        (180001 ≤ (makeVariedNumberTriplet s 20000 500000).2.1 ∧
          (makeVariedNumberTriplet s 20000 500000).2.1 ≤ 340000) ∧
        (340001 ≤ (makeVariedNumberTriplet s 20000 500000).2.2 ∧
          (makeVariedNumberTriplet s 20000 500000).2.2 ≤ 500000)) ∧
    (∀ s : List Char,
        (5 ≤ (pickTripletFromBuckets s [(5, 50), (100, 500), (1000, 3000)]).1 ∧
          (pickTripletFromBuckets s [(5, 50), (100, 500), (1000, 3000)]).1 ≤ 50) ∧
        (100 ≤ (pickTripletFromBuckets s [(5, 50), (100, 500), (1000, 3000)]).2.1 ∧
          (pickTripletFromBuckets s [(5, 50), (100, 500), (1000, 3000)]).2.1 ≤ 500) ∧
        (1000 ≤ (pickTripletFromBuckets s [(5, 50), (100, 500), (1000, 3000)]).2.2 ∧
          (pickTripletFromBuckets s [(5, 50), (100, 500), (1000, 3000)]).2.2 ≤ 3000)) := by
  refine ⟨?_, ?_, fun _ _ => rfl, fun _ _ _ => rfl, ?_, ?_⟩
  · intro s bs
    exact ⟨pickInBucket_bounds (hash32 s) 0 _, pickInBucket_bounds (hash32 s) 1 _,
      pickInBucket_bounds (hash32 s) 2 _⟩
  · intro h i b he
    exact pickInBucket_span_zero h i b he
  · intro s
    have e1 : (makeVariedNumberTriplet s 20000 500000).1 =
        pickInVaried (hash32 s) 0 (20000, 180000) := rfl
    have e2 : (makeVariedNumberTriplet s 20000 500000).2.1 =
        pickInVaried (hash32 s) 1 (180001, 340000) := rfl
    have e3 : (makeVariedNumberTriplet s 20000 500000).2.2 =
        pickInVaried (hash32 s) 2 (340001, 500000) := rfl
    rw [e1, e2, e3]
    exact ⟨pickInVaried_bounds _ 0 _ (by decide), pickInVaried_bounds _ 1 _ (by decide),
      pickInVaried_bounds _ 2 _ (by decide)⟩
  · intro s
    have e1 : (pickTripletFromBuckets s [(5, 50), (100, 500), (1000, 3000)]).1 =
        pickInBucket (hash32 s) 0 (5, 50) := rfl
    have e2 : (pickTripletFromBuckets s [(5, 50), (100, 500), (1000, 3000)]).2.1 =
        pickInBucket (hash32 s) 1 (100, 500) := rfl
    have e3 : (pickTripletFromBuckets s [(5, 50), (100, 500), (1000, 3000)]).2.2 =
        pickInBucket (hash32 s) 2 (1000, 3000) := rfl
    rw [e1, e2, e3]
    refine ⟨?_, ?_, ?_⟩
    · have := pickInBucket_bounds (hash32 s) 0 (5, 50)
      simpa using this
    · have := pickInBucket_bounds (hash32 s) 1 (100, 500)
      simpa using this
    · have := pickInBucket_bounds (hash32 s) 2 (1000, 3000)
      simpa using this

/-- Counterexample for C7 as stated: `makeVariedNumberTriplet` with
bounds (0, 1) derives the inverted middle bucket (1, 0) without
swapping, forces its span to 1, and for the seed "s" returns 2 as its
second component — outside [min(1,0), max(1,0)] = [0, 1] and outside
the requested range [0, 1]. -/
theorem c7_seeded_pickers_counterexample :
    (makeVariedNumberTriplet "s".data 0 1).2.1 = 2 ∧
    ¬((makeVariedNumberTriplet "s".data 0 1).2.1 ≤ 1) := by
  refine ⟨by decide, by decide⟩

/-- Witness for C7 (amended): the varied-bucket bounds hypothesis
discharged at the inverted bucket, and the span-zero case evaluated. -/
theorem c7_seeded_pickers_amended_witness :
    pickInBucket 7 1 (4, 4) = 4 ∧
    (20000 ≤ (makeVariedNumberTriplet "x".data 20000 500000).1 ∧
      (makeVariedNumberTriplet "x".data 20000 500000).1 ≤ 180000) :=
  ⟨c7_seeded_pickers_amended.2.1 7 1 (4, 4) rfl,
   (c7_seeded_pickers_amended.2.2.2.2.1 "x".data).1⟩

/-- Counterexample for C1 as stated: an exception raised by the backend
call is not absorbed — `generateInvention` re-raises it (the route's
top-level handler then returns an error response); and a parse-able
reply with missing fields gets the title "Invention A", not a
placeholder from the word-pair table. -/
theorem c1_generation_counterexample :
    generateInvention (.error ()) .A ("neon armadillo".data, "quarterly taxes".data)
        (20000, 25) = .error () ∧
    (parseInventionResponse (some (Json.obj [])) .A
        ("neon armadillo".data, "quarterly taxes".data) (20000, 25)).1.title
      = "Invention A".data ∧
    "Invention A".data ≠ fallbackTitle ("neon armadillo".data, "quarterly taxes".data)
        ("A:fallback".data) :=
  ⟨rfl, by decide, by decide⟩

/-- C1 (amended): for every reply text the backend returns, the per-item
generation step never fails: an unparseable reply yields the full
deterministic fallback item (word-pair placeholder title keyed by the
hash of "id:fallback", canned pitch, hidden-truth defaults low risk and
niche demand), and a parse-able reply with missing fields yields the
canned pitch and the same hidden-truth defaults; only an exception from
the backend call itself propagates out of the step. -/
theorem c1_generation_absorbs_parse_failures :
    (∀ (p : Option Json) (id : InventionId) (d : List Char × List Char) (fx : Int × Int),
        generateInvention (.ok p) id d fx = .ok (parseInventionResponse p id d fx)) ∧
    (∀ (id : InventionId) (d : List Char × List Char) (fx : Int × Int),
        parseInventionResponse none id d fx =
          (⟨id, fallbackTitle d (id.str ++ ":fallback".data), cannedPitch, "consumer".data,
            d, fx.1, fx.2, none⟩, ⟨[], .low, .niche⟩)) ∧
    (∀ (id : InventionId) (d : List Char × List Char) (fx : Int × Int),
        (parseInventionResponse (some (Json.obj [])) id d fx).1.pitch = cannedPitch ∧
        (parseInventionResponse (some (Json.obj [])) id d fx).2
          = ⟨[], .low, .niche⟩) ∧
    (∀ (e : Unit) (id : InventionId) (d : List Char × List Char) (fx : Int × Int),
        generateInvention (.error e) id d fx = .error e) :=
  ⟨fun _ _ _ _ => rfl, fun _ _ _ => rfl, fun _ _ _ => ⟨rfl, rfl⟩, fun _ _ _ _ => rfl⟩

/-- Counterexample for C3 as stated: with descriptors "neon armadillo"
and "quarterly taxes", sanitising the title "Neon Armadillo Tax
Tracker" leaves "tax" as a standalone token — only exact normalized
matches of descriptor tokens are filtered, and the descriptors contain
"taxes" but not "tax". -/
theorem c3_title_sanitization_counterexample :
    "tax".data ∈ lowerTokens (sanitizeTitle "Neon Armadillo Tax Tracker".data
      ("neon armadillo".data, "quarterly taxes".data) "A:25:20000".data) := by
  decide

/-- C3 (amended): on the concrete example the sanitized title's tokens
are exactly "tax" and "tracker" (so "neon", "armadillo" and "taxes" are
gone but "tax" survives); for every title and descriptor pair, if
filtering leaves fewer than 3 characters the whole title is replaced by
the deterministic seed-derived fallback name, which is always
non-empty. -/
theorem c3_title_sanitization_amended :
    lowerTokens (sanitizeTitle "Neon Armadillo Tax Tracker".data
        ("neon armadillo".data, "quarterly taxes".data) "A:25:20000".data)
      = ["tax".data, "tracker".data] ∧
    (∀ (t : List Char) (d : List Char × List Char) (s : List Char),
        (cleanedTitle t d).length < 3 → sanitizeTitle t d s = fallbackTitle d s) ∧
    (∀ (d : List Char × List Char) (s : List Char), fallbackTitle d s ≠ []) := by
  refine ⟨by decide, ?_, ?_⟩
  · intro t d s h
    rw [sanitizeTitle, if_pos]
    simp [h]
  · intro d s
    rw [fallbackTitle]
    simp

/-- Witness for C3 (amended): the title "Neon Armadillo" is filtered to
nothing and replaced by the non-empty fallback name. -/
theorem c3_title_sanitization_amended_witness :
    sanitizeTitle "Neon Armadillo".data ("neon armadillo".data, "quarterly taxes".data)
        "seed0".data
      = fallbackTitle ("neon armadillo".data, "quarterly taxes".data) "seed0".data ∧
    fallbackTitle ("neon armadillo".data, "quarterly taxes".data) "seed0".data ≠ [] :=
  ⟨c3_title_sanitization_amended.2.1 "Neon Armadillo".data
      ("neon armadillo".data, "quarterly taxes".data) "seed0".data (by decide),
   c3_title_sanitization_amended.2.2 ("neon armadillo".data, "quarterly taxes".data)
      "seed0".data⟩

/-- Helper: a clamped answer never exceeds 240 characters. -/
theorem clampAnswer_length_le (s : List Char) : (clampAnswer s).length ≤ 240 := by
  rw [clampAnswer]
  split
  · next h => exact h
  · next h =>
    have h1 : (trim ((collapseWs s).take 236)).length ≤ 236 :=
      le_trans (length_trim_le _) (List.length_take_le 236 (collapseWs s))
    simp only [List.length_append, List.length_cons, List.length_nil]
    omega

/-- Helper: an empty clamped answer forces an empty collapsed input. -/
theorem clampAnswer_eq_nil_imp (s : List Char) (h : clampAnswer s = []) :
    collapseWs s = [] := by
  rw [clampAnswer] at h
  split at h
  · exact h
  · exact absurd h (by simp)

/-- Helper: an empty collapsed string means the original was all
whitespace, hence trims to empty. -/
theorem trim_eq_nil_of_collapseWs_eq_nil (x : List Char) (h : collapseWs x = []) :
    trim x = [] :=
  trim_eq_nil_of_all_ws x (all_ws_of_collapseWs_eq_nil x h)

/-- Helper: clamping a nonempty trimmed answer never yields the empty
string. -/
theorem clampAnswer_trim_ne_nil (a : List Char) (h : trim a ≠ []) :
    clampAnswer (trim a) ≠ [] := by
  intro hc
  have h1 := clampAnswer_eq_nil_imp _ hc
  have h2 := trim_eq_nil_of_collapseWs_eq_nil _ h1
  rw [trim_idem] at h2
  exact h h2

/-- Counterexample for C10 as stated: on a reply that is not valid JSON
(so JSON.parse throws, modelled by the parse returning none) the regex
fallback captures a whitespace-only answer, and the endpoint returns
the empty string. -/
theorem c10_answer_counterexample :
    parseAnswerResponse (fun _ => none) "x \"answer\": \" \"".data = [] := by
  decide

/-- C10 (amended): every answer is at most 240 characters after
whitespace collapsing — a collapsed answer of at most 240 characters is
returned unchanged, a longer one is cut to at most 236 characters plus
a terminal ellipsis (237 total) — and on total parse failure the fixed
non-empty fallback sentence is returned; the result is non-empty except
when the regex fallback captures a non-empty, whitespace-only answer
string. -/
theorem c10_answer_clamped_amended (p : List Char → Option Json) (raw : List Char) :
    (parseAnswerResponse p raw).length ≤ 240 ∧
    (∀ s : List Char, (collapseWs s).length ≤ 240 → clampAnswer s = collapseWs s) ∧
    (∀ s : List Char, 240 < (collapseWs s).length →
        clampAnswer s = trim ((collapseWs s).take 236) ++ ['\u2026'] ∧
          (clampAnswer s).length ≤ 237) ∧
    (parseAnswerResponse p raw = [] →
        ∃ cap, answerSearch raw = some cap ∧ cap ≠ [] ∧ trim cap = []) ∧
    (p raw = none → answerSearch raw = none →
        parseAnswerResponse p raw = fallbackAnswer) ∧
    fallbackAnswer ≠ [] := by
  have hvia : ∀ r, answerViaJson p raw = some r → (r ≠ [] ∧ r.length ≤ 240) := by
    intro r hr
    rw [answerViaJson] at hr
    split at hr
    · split at hr
      · next a heq =>
        split at hr
        · exact absurd hr (by simp)
        · next ha =>
          have hrr := Option.some_injective _ hr
          rw [← hrr]
          exact ⟨clampAnswer_trim_ne_nil a (by simpa using ha), clampAnswer_length_le _⟩
      · exact absurd hr (by simp)
    · exact absurd hr (by simp)
  refine ⟨?_, ?_, ?_, ?_, ?_, by decide⟩
  · rw [parseAnswerResponse]
    rcases hv : answerViaJson p raw with _ | r
    · simp only
      rcases hs : answerSearch raw with _ | cap
      · decide
      · simp only
        split
        · decide
        · exact clampAnswer_length_le _
    · exact (hvia r hv).2
  · intro s h
    rw [clampAnswer, if_pos h]
  · intro s h
    rw [clampAnswer, if_neg (by omega)]
    refine ⟨rfl, ?_⟩
    have h1 : (trim ((collapseWs s).take 236)).length ≤ 236 :=
      le_trans (length_trim_le _) (List.length_take_le 236 (collapseWs s))
    simp only [List.length_append, List.length_cons, List.length_nil]
    omega
  · intro hz
    rw [parseAnswerResponse] at hz
    rcases hv : answerViaJson p raw with _ | r
    · rw [hv] at hz
      simp only at hz
      rcases hs : answerSearch raw with _ | cap
      · rw [hs] at hz
        exact absurd hz (by decide)
      · rw [hs] at hz
        simp only at hz
        split at hz
        · exact absurd hz (by decide)
        · next hcap =>
          refine ⟨cap, rfl, by simpa using hcap, ?_⟩
          have h1 := clampAnswer_eq_nil_imp _ hz
          have h2 := trim_eq_nil_of_collapseWs_eq_nil _ h1
          rw [trim_idem] at h2
          exact h2
    · rw [hv] at hz
      simp only at hz
      exact absurd hz (hvia r hv).1
  · intro hp hs
    rw [parseAnswerResponse, answerViaJson, hp, hs]

/-- Witness for C10 (amended): a short answer is returned collapsed and
unchanged, and a reply that neither parses nor matches the regex yields
the fixed fallback sentence. -/
theorem c10_answer_clamped_amended_witness :
    clampAnswer "hi there".data = collapseWs "hi there".data ∧
    parseAnswerResponse (fun _ => none) "zzz".data = fallbackAnswer :=
  ⟨(c10_answer_clamped_amended (fun _ => none) "zzz".data).2.1 "hi there".data (by decide),
   (c10_answer_clamped_amended (fun _ => none) "zzz".data).2.2.2.2.1 rfl (by decide)⟩

/-- Helper: dropping a trailing carriage return from a line without one
is the identity. -/
theorem dropCR_of_not_mem (l : List Char) (h : '\r' ∉ l) : dropCR l = l := by
  rw [dropCR]
  split
  · next r hr =>
    exfalso
    apply h
    rw [← List.mem_reverse, hr]
    exact List.mem_cons_self _ _
  · rfl

/-- Helper: a string with non-whitespace first and last characters is
already trimmed. -/
theorem trim_fix_of_ends (c : Char) (m : List Char) (d : Char)
    (hc : isWs c = false) (hd : isWs d = false) :
    trim (c :: (m ++ [d])) = c :: (m ++ [d]) := by
  calc trim (c :: (m ++ [d])) = trimR (c :: (m ++ [d])) := by
        rw [trim, trimL_cons_not_ws _ _ hc]
    _ = trimR ((c :: m) ++ [d]) := by simp
    _ = (c :: m) ++ [d] := trimR_append_not_ws _ _ hd
    _ = c :: (m ++ [d]) := by simp

/-- Helper: splitting a header line joined to a newline-free body yields
exactly the two lines. -/
theorem splitNl_two_lines (hl body : List Char) (h1 : '\n' ∉ hl) (h1r : '\r' ∉ hl)
    (h2 : '\n' ∉ body) (h2r : '\r' ∉ body) :
    splitNl (hl ++ '\n' :: body) = [hl, body] := by
  rw [splitNl, splitOn_append '\n' hl body h1, splitOn_of_not_mem '\n' body h2]
  simp [dropCR_of_not_mem _ h1r, dropCR_of_not_mem _ h2r]

/-- Counterexample for C4 as stated: a pitch made of a "Hook: ..." label
line followed by three sentences sanitizes to the first two sentences
of the non-header text, not to sentences 2 and 3. -/
theorem c4_pitch_sanitization_counterexample :
    sanitizePitch "Hook: punchy\nAlpha. Beta. Gamma.".data = "Alpha. Beta.".data ∧
    "Alpha. Beta.".data ≠ "Beta. Gamma.".data :=
  ⟨by decide, by decide⟩

/-- C4 (amended): for every raw pitch consisting of a heading-shaped
label line (e.g. "Hook: ...") followed by trimmed single-line text
whose collapsed form segments into exactly 3 sentences, sanitization
returns exactly the content of sentences 1 and 2 of the non-header
text, joined by a single space, with no leading label. -/
theorem c4_pitch_sanitization_amended (hl body s₁ s₂ s₃ : List Char)
    (h1 : isHeaderLine hl = true) (h2 : trim hl = hl) (h2n : hl ≠ [])
    (h3 : '\n' ∉ hl) (h3r : '\r' ∉ hl)
    (h4 : trim body = body) (h4n : body ≠ [])
    (h5 : '\n' ∉ body) (h5r : '\r' ∉ body)
    (h6 : isHeaderLine body = false)
    (h7 : stripBullet body = body)
    (h8 : sentencesOf (collapseWs body) = [s₁, s₂, s₃]) :
    sanitizePitch (hl ++ '\n' :: body) = s₁ ++ ' ' :: s₂ := by
  obtain ⟨c, t, hct, hc⟩ := exists_head_not_ws_of_trim_fix hl h2 h2n
  obtain ⟨t2, d, ht2, hd⟩ := exists_last_not_ws_of_trim_fix body h4 h4n
  subst hct
  subst ht2
  have htrimraw : trim ((c :: t) ++ '\n' :: (t2 ++ [d])) =
      (c :: t) ++ '\n' :: (t2 ++ [d]) := by
    have e : (c :: t) ++ '\n' :: (t2 ++ [d]) = c :: ((t ++ '\n' :: t2) ++ [d]) := by simp
    rw [e, trim_fix_of_ends c _ d hc hd]
  have hlines : pitchLines ((c :: t) ++ '\n' :: (t2 ++ [d])) = [t2 ++ [d]] := by
    rw [pitchLines, splitNl_two_lines _ _ h3 h3r h5 h5r]
    simp only [List.map_cons, List.map_nil, h2, h4]
    simp [List.filter_cons, h1, h6, h7]
  have hm1 : trim s₁ = s₁ ∧ s₁ ≠ [] :=
    sentencesOf_mem (collapseWs (t2 ++ [d])) s₁ (by rw [h8]; simp)
  have hm2 : trim s₂ = s₂ ∧ s₂ ≠ [] :=
    sentencesOf_mem (collapseWs (t2 ++ [d])) s₂ (by rw [h8]; simp)
  rw [sanitizePitch, htrimraw]
  rw [if_neg (by simp)]
  rw [hlines, joinSp_single]
  show trim (joinSp ((sentencesOf (collapseWs (t2 ++ [d]))).take 2)) = s₁ ++ ' ' :: s₂
  rw [h8]
  show trim (joinSp [s₁, s₂]) = s₁ ++ ' ' :: s₂
  rw [joinSp_pair]
  exact trim_append_sep s₁ s₂ hm1.1 hm1.2 hm2.1 hm2.2

/-- Witness for C4 (amended): the hook line "Hook: grab attention"
followed by three sentences sanitizes to the first two sentences. -/
theorem c4_pitch_sanitization_amended_witness :
    sanitizePitch ("Hook: grab attention".data ++ '\n' ::
        "Alpha beta. Gamma delta. Epsilon zeta.".data)
      = "Alpha beta.".data ++ ' ' :: "Gamma delta.".data :=
  c4_pitch_sanitization_amended "Hook: grab attention".data
    "Alpha beta. Gamma delta. Epsilon zeta.".data
    "Alpha beta.".data "Gamma delta.".data "Epsilon zeta.".data
    (by decide) (by decide) (by decide) (by decide) (by decide) (by decide)
    (by decide) (by decide) (by decide) (by decide) (by decide) (by decide)

end HS
